import Mathlib

/-!
Shallow embedding of the Metropolis-Hastings sampler from
src/Metropolis_Hastings.ipynb (cell 6, the `metropolis` function):

  def metropolis(func, steps=10000):
      samples = np.zeros(steps)
      old_x = func.mean()
      old_prob = func.pdf(old_x)
      for i in range(steps):
          new_x = old_x + np.random.normal(0, 0.5)
          new_prob = func.pdf(new_x)
          acceptance = new_prob / old_prob
          if acceptance >= np.random.random():
              samples[i] = new_x
              old_x = new_x
              old_prob = new_prob
          else:
              samples[i] = old_x
      return samples

Modelling conventions:
- Scalars are an arbitrary linear ordered field (instantiated at ℚ for
  executable checks and at ℝ for the standard-normal scenario).
- The global numpy random state is an explicit stream `rng : ℕ → α`
  together with a cursor: each call to the random source consumes the next
  stream entry, so draws are made strictly in order.  Within iteration `i`
  the call `np.random.normal(0, 0.5)` consumes the entry at the cursor and
  the call `np.random.random()` consumes the entry after it.  Following the
  scale-family identity used by numpy (`normal(0, s)` is `s` times a
  standard-normal draw), the stream entry consumed by the normal call is
  the standard-normal value and the code multiplies it by the hardcoded
  `0.5`; the entry consumed by `np.random.random()` is the uniform draw.
- Python float division `new_prob / old_prob` follows IEEE-754: when
  `old_prob = 0` it yields `+inf` for `new_prob > 0` (so `>= u` holds for
  every real `u`) and `nan` for `new_prob = 0` (every comparison false).
  The predicate `accepts` reproduces exactly that case split; for
  `old_prob ≠ 0` the division is modelled exactly.
-/

/-- The target-distribution collaborator: the code only calls `func.pdf`
and `func.mean()` (scipy frozen distribution interface). -/
structure TargetDist (α : Type) where
  pdf : α → α
  mean : α

/-- The acceptance test `acceptance >= np.random.random()` where
`acceptance = new_prob / old_prob`, with the IEEE-754 behaviour of Python
float division at `old_prob = 0`: ratio `+inf` (accept) when the numerator
is positive, ratio `nan` (reject) otherwise. -/
def accepts {α : Type} [LinearOrderedField α] (newProb oldProb u : α) : Bool :=
  if oldProb = 0 then decide (0 < newProb) else decide (newProb / oldProb ≥ u)

/-- The `for i in range(steps)` loop of `metropolis`.  Arguments: the
remaining step count, the rng cursor (index of the next unconsumed draw),
and the mutable pair `old_x`, `old_prob`.  Returns the samples recorded by
the remaining iterations together with the final cursor position. -/
def metropolisLoop {α : Type} [LinearOrderedField α]
    (pdf : α → α) (rng : ℕ → α) : ℕ → ℕ → α → α → List α × ℕ
  | 0, k, _, _ => ([], k)
  | n + 1, k, oldX, oldProb =>
    if accepts (pdf (oldX + 1 / 2 * rng k)) oldProb (rng (k + 1)) then
      ((oldX + 1 / 2 * rng k) ::
          (metropolisLoop pdf rng n (k + 2) (oldX + 1 / 2 * rng k)
            (pdf (oldX + 1 / 2 * rng k))).1,
        (metropolisLoop pdf rng n (k + 2) (oldX + 1 / 2 * rng k)
          (pdf (oldX + 1 / 2 * rng k))).2)
    else
      (oldX :: (metropolisLoop pdf rng n (k + 2) oldX oldProb).1,
        (metropolisLoop pdf rng n (k + 2) oldX oldProb).2)

/-- `metropolis(func, steps)`: start at `func.mean()` with cached density
`func.pdf(func.mean())`, run the loop from rng cursor 0, return the
samples. -/
def metropolis {α : Type} [LinearOrderedField α]
    (func : TargetDist α) (steps : ℕ) (rng : ℕ → α) : List α :=
  (metropolisLoop func.pdf rng steps 0 func.mean (func.pdf func.mean)).1

/-- Loop of `runSpec` below: identical to `metropolisLoop` except that the
proposal offset is `stddev` times the standard-normal draw, with `stddev`
a parameter as the spec contract demands, instead of the hardcoded
`0.5`. -/
def runSpecLoop {α : Type} [LinearOrderedField α]
    (pdf : α → α) (stddev : α) (rng : ℕ → α) : ℕ → ℕ → α → α → List α × ℕ
  | 0, k, _, _ => ([], k)
  | n + 1, k, oldX, oldProb =>
    if accepts (pdf (oldX + stddev * rng k)) oldProb (rng (k + 1)) then
      ((oldX + stddev * rng k) ::
          (runSpecLoop pdf stddev rng n (k + 2) (oldX + stddev * rng k)
            (pdf (oldX + stddev * rng k))).1,
        (runSpecLoop pdf stddev rng n (k + 2) (oldX + stddev * rng k)
          (pdf (oldX + stddev * rng k))).2)
    else
      (oldX :: (runSpecLoop pdf stddev rng n (k + 2) oldX oldProb).1,
        (runSpecLoop pdf stddev rng n (k + 2) oldX oldProb).2)

/-- The spec contract
`run(target_density, steps, proposal_stddev, initial_position, rng)`, written
from the words of the spec for comparison with the code: the proposal
standard deviation and the initial position are caller-supplied
parameters.  Used only to state how the code diverges from that
contract. -/
def runSpec {α : Type} [LinearOrderedField α] (pdf : α → α) (steps : ℕ)
    (stddev init : α) (rng : ℕ → α) : List α :=
  (runSpecLoop pdf stddev rng steps 0 init (pdf init)).1

/-- The standard normal target of the concrete scenario:
`stats.norm(0, 1)` with `pdf x = exp(-x^2/2)/sqrt(2*pi)` and mean 0. -/
noncomputable def normalDist : TargetDist ℝ :=
  ⟨fun x => Real.exp (-(x ^ 2) / 2) / Real.sqrt (2 * Real.pi), 0⟩

/-- A target whose density is constant 1 everywhere, mean 0.  Every
proposal is accepted (ratio 1 ≥ u for u in the unit interval). -/
def constDist : TargetDist ℚ :=
  ⟨fun _ => 1, 0⟩

/-- A target with density 1 exactly at 0 and density 0 elsewhere, mean 0:
the chain starts inside the support and every proposed move leaves it. -/
def indAtZeroDist : TargetDist ℚ :=
  ⟨fun x => if x = 0 then 1 else 0, 0⟩

/-- A target whose density is 0 exactly at its own mean 0 and 1
elsewhere: the chain starts at a point of zero density. -/
def zeroAtZeroDist : TargetDist ℚ :=
  ⟨fun x => if x = 0 then 0 else 1, 0⟩

/-- Stream whose normal draw (index 0) is 2 and all later draws are 0; in
particular the uniform draw of the first iteration is 0. -/
def rngU0 : ℕ → ℚ := fun j => if j = 0 then 2 else 0

/-- Stream whose normal draw (index 0) is 2 and all later draws are 1/2. -/
def rngHalf : ℕ → ℚ := fun j => if j = 0 then 2 else 1 / 2

/-- The all-zero draw stream. -/
def zeroRng : ℕ → ℚ := fun _ => 0

/-- Stream for the concrete scenario: the standard-normal draw (index 0)
is 3/5, so the Normal(0, 0.5) offset is exactly 0.3; the uniform draw
(index 1) is 0.1. -/
noncomputable def rngScenario : ℕ → ℝ := fun j => if j = 0 then 3 / 5 else 1 / 10

lemma metropolisLoop_length {α : Type} [LinearOrderedField α]
    (pdf : α → α) (rng : ℕ → α) :
    ∀ n k x p, (metropolisLoop pdf rng n k x p).1.length = n := by
  intro n
  induction n with
  | zero => intro k x p; rfl
  | succ m ih =>
    intro k x p
    rw [metropolisLoop]
    split
    · simp [ih]
    · simp [ih]

lemma metropolisLoop_snd {α : Type} [LinearOrderedField α]
    (pdf : α → α) (rng : ℕ → α) :
    ∀ n k x p, (metropolisLoop pdf rng n k x p).2 = k + 2 * n := by
  intro n
  induction n with
  | zero => intro k x p; simp [metropolisLoop]
  | succ m ih =>
    intro k x p
    rw [metropolisLoop]
    split
    · simp only [ih]; omega
    · simp only [ih]; omega

lemma metropolisLoop_agree {α : Type} [LinearOrderedField α]
    (pdf : α → α) (rng rng' : ℕ → α) :
    ∀ n k x p, (∀ j, k ≤ j → j < k + 2 * n → rng j = rng' j) →
      metropolisLoop pdf rng n k x p = metropolisLoop pdf rng' n k x p := by
  intro n
  induction n with
  | zero => intro k x p _; rfl
  | succ m ih =>
    intro k x p h
    have h0 : rng k = rng' k := h k le_rfl (by omega)
    have h1 : rng (k + 1) = rng' (k + 1) := h (k + 1) (by omega) (by omega)
    have hrest : ∀ j, k + 2 ≤ j → j < k + 2 + 2 * m → rng j = rng' j :=
      fun j hj1 hj2 => h j (by omega) (by omega)
    rw [metropolisLoop, metropolisLoop, h0, h1,
      ih (k + 2) (x + 1 / 2 * rng' k) (pdf (x + 1 / 2 * rng' k)) hrest,
      ih (k + 2) x p hrest]

lemma runSpecLoop_half {α : Type} [LinearOrderedField α]
    (pdf : α → α) (rng : ℕ → α) :
    ∀ n k x p, runSpecLoop pdf (1 / 2) rng n k x p =
      metropolisLoop pdf rng n k x p := by
  intro n
  induction n with
  | zero => intro k x p; rfl
  | succ m ih =>
    intro k x p
    rw [metropolisLoop, runSpecLoop, ih, ih]

/-- C1: in every iteration whose acceptance ratio
`candidate_density / current_density` is at least the uniform draw, the
recorded sample is the candidate position
`current_position + offset` (offset = 0.5 times the standard-normal
draw), and the candidate position and candidate density become the
current position and current density of the following iteration. -/
theorem acceptance_correct {α : Type} [LinearOrderedField α]
    (pdf : α → α) (rng : ℕ → α) (n k : ℕ) (oldX oldProb : α)
    (hpos : 0 < oldProb)
    (hacc : pdf (oldX + 1 / 2 * rng k) / oldProb ≥ rng (k + 1)) :
    metropolisLoop pdf rng (n + 1) k oldX oldProb =
      ((oldX + 1 / 2 * rng k) ::
          (metropolisLoop pdf rng n (k + 2) (oldX + 1 / 2 * rng k)
            (pdf (oldX + 1 / 2 * rng k))).1,
        (metropolisLoop pdf rng n (k + 2) (oldX + 1 / 2 * rng k)
          (pdf (oldX + 1 / 2 * rng k))).2) := by
  have hne : oldProb ≠ 0 := ne_of_gt hpos
  rw [metropolisLoop, if_pos]
  rw [accepts, if_neg hne]
  exact decide_eq_true hacc

theorem acceptance_correct_witness :
    (0 : ℚ) < 1 ∧
      ((fun _ : ℚ => (1 : ℚ)) ((0 : ℚ) + 1 / 2 * zeroRng 0) / 1 ≥ zeroRng 1) ∧
      metropolisLoop (fun _ : ℚ => (1 : ℚ)) zeroRng 1 0 0 1 = ([0], 2) :=
  ⟨by norm_num, by simp [zeroRng],
    (acceptance_correct (fun _ : ℚ => (1 : ℚ)) zeroRng 0 0 0 1 (by norm_num)
      (by simp [zeroRng])).trans (by norm_num [metropolisLoop, zeroRng])⟩

/-- C2: in every iteration whose acceptance ratio
`candidate_density / current_density` is strictly below the uniform draw,
the recorded sample is the unchanged current position, and the following
iteration starts from the same current position and the same cached
current density. -/
theorem rejection_correct {α : Type} [LinearOrderedField α]
    (pdf : α → α) (rng : ℕ → α) (n k : ℕ) (oldX oldProb : α)
    (hpos : 0 < oldProb)
    (hrej : pdf (oldX + 1 / 2 * rng k) / oldProb < rng (k + 1)) :
    metropolisLoop pdf rng (n + 1) k oldX oldProb =
      (oldX :: (metropolisLoop pdf rng n (k + 2) oldX oldProb).1,
        (metropolisLoop pdf rng n (k + 2) oldX oldProb).2) := by
  have hne : oldProb ≠ 0 := ne_of_gt hpos
  rw [metropolisLoop, if_neg]
  rw [accepts, if_neg hne]
  simpa using not_le.mpr hrej

theorem rejection_correct_witness :
    (0 : ℚ) < 1 ∧
      ((fun _ : ℚ => (0 : ℚ)) ((0 : ℚ) + 1 / 2 * rngHalf 0) / 1 < rngHalf 1) ∧
      metropolisLoop (fun _ : ℚ => (0 : ℚ)) rngHalf 1 0 0 1 = ([0], 2) :=
  ⟨by norm_num, by norm_num [rngHalf],
    (rejection_correct (fun _ : ℚ => (0 : ℚ)) rngHalf 0 0 0 1 (by norm_num)
      (by norm_num [rngHalf])).trans (by norm_num [metropolisLoop, zeroRng])⟩

/-- C3: for every step count `N ≥ 1` the sampler returns an ordered
sequence of exactly `N` scalar values, one entry per iteration. -/
theorem length_invariant {α : Type} [LinearOrderedField α]
    (func : TargetDist α) (n : ℕ) (rng : ℕ → α) (_h : 1 ≤ n) :
    (metropolis func n rng).length = n :=
  metropolisLoop_length func.pdf rng n 0 func.mean (func.pdf func.mean)

theorem length_invariant_witness :
    1 ≤ 3 ∧ (metropolis constDist 3 zeroRng).length = 3 :=
  ⟨by norm_num, length_invariant constDist 3 zeroRng (by norm_num)⟩

/-- C7: the sampler is a pure function of its inputs — with the random
source given by a fixed seed (hence a fixed draw stream), two invocations
on the same target distribution, step count and stream return identical
output sequences. -/
theorem determinism_fixed_seed {α : Type} [LinearOrderedField α]
    (f₁ f₂ : TargetDist α) (n₁ n₂ : ℕ) (r₁ r₂ : ℕ → α)
    (hf : f₁ = f₂) (hn : n₁ = n₂) (hr : r₁ = r₂) :
    metropolis f₁ n₁ r₁ = metropolis f₂ n₂ r₂ := by
  rw [hf, hn, hr]

theorem determinism_fixed_seed_witness :
    constDist = constDist ∧ 2 = 2 ∧ zeroRng = zeroRng ∧
      metropolis constDist 2 zeroRng = metropolis constDist 2 zeroRng :=
  ⟨rfl, rfl, rfl, determinism_fixed_seed constDist constDist 2 2 zeroRng zeroRng
    rfl rfl rfl⟩

/-- C8: the random source is consumed strictly in order, two draws per
iteration.  First conjunct: a run of the loop over `n` iterations starting
with the rng cursor at `k` leaves the cursor at `k + 2n`, i.e. each
iteration consumes exactly two draws — the one at the cursor (the
standard-normal draw scaled into the proposal offset) followed by the next
(the uniform draw), as the loop body reads indices `k` and `k + 1`.
Second conjunct: a full run of `n` steps depends on no draw beyond the
first `2n`: two streams agreeing on indices below `2n` give identical
output sequences. -/
theorem rng_draws_in_order {α : Type} [LinearOrderedField α] :
    (∀ (pdf : α → α) (rng : ℕ → α) (n k : ℕ) (x p : α),
        (metropolisLoop pdf rng n k x p).2 = k + 2 * n) ∧
      (∀ (func : TargetDist α) (n : ℕ) (rng rng' : ℕ → α),
        (∀ j, j < 2 * n → rng j = rng' j) →
          metropolis func n rng = metropolis func n rng') :=
  ⟨fun pdf rng n k x p => metropolisLoop_snd pdf rng n k x p,
    fun func n rng rng' h => by
      unfold metropolis
      rw [metropolisLoop_agree func.pdf rng rng' n 0 func.mean
        (func.pdf func.mean) (fun j _ hj => h j (by omega))]⟩

theorem rng_draws_in_order_witness :
    (metropolisLoop (fun _ : ℚ => (1 : ℚ)) zeroRng 3 0 0 1).2 = 0 + 2 * 3 ∧
      metropolis constDist 1 zeroRng =
        metropolis constDist 1 (fun j => if j < 2 then 0 else 7) :=
  ⟨rng_draws_in_order.1 (fun _ : ℚ => (1 : ℚ)) zeroRng 3 0 0 1,
    rng_draws_in_order.2 constDist 1 zeroRng (fun j => if j < 2 then 0 else 7)
      (by intro j hj; simp only [zeroRng]; rw [if_pos hj])⟩

lemma metropolisLoop_accept {α : Type} [LinearOrderedField α]
    (pdf : α → α) (rng : ℕ → α) (n k : ℕ) (oldX oldProb : α)
    (h : accepts (pdf (oldX + 1 / 2 * rng k)) oldProb (rng (k + 1)) = true) :
    metropolisLoop pdf rng (n + 1) k oldX oldProb =
      ((oldX + 1 / 2 * rng k) ::
          (metropolisLoop pdf rng n (k + 2) (oldX + 1 / 2 * rng k)
            (pdf (oldX + 1 / 2 * rng k))).1,
        (metropolisLoop pdf rng n (k + 2) (oldX + 1 / 2 * rng k)
          (pdf (oldX + 1 / 2 * rng k))).2) := by
  rw [metropolisLoop, if_pos h]

lemma metropolisLoop_reject {α : Type} [LinearOrderedField α]
    (pdf : α → α) (rng : ℕ → α) (n k : ℕ) (oldX oldProb : α)
    (h : accepts (pdf (oldX + 1 / 2 * rng k)) oldProb (rng (k + 1)) = false) :
    metropolisLoop pdf rng (n + 1) k oldX oldProb =
      (oldX :: (metropolisLoop pdf rng n (k + 2) oldX oldProb).1,
        (metropolisLoop pdf rng n (k + 2) oldX oldProb).2) := by
  rw [metropolisLoop, h]
  simp

/-- C4: the concrete scenario.  Target is the standard normal, one step,
the chain starts at the mean 0, the Normal(0, 0.5) offset is exactly
`0.5 * (3/5) = 0.3` and the uniform draw is `0.1`.  The candidate
position is `0.3`, the acceptance ratio equals
`exp(-9/200) = φ(0.3)/φ(0) ≈ 0.9558` (it lies between `191/200 = 0.955`
and `200/209 < 0.9570`), which is at least the uniform draw `0.1`, so the
candidate is accepted and the returned sequence is exactly `[0.3]`. -/
theorem concrete_scenario_standard_normal :
    (0 : ℝ) + 1 / 2 * rngScenario 0 = 3 / 10 ∧
      normalDist.pdf (3 / 10) / normalDist.pdf 0 = Real.exp (-(9 / 200)) ∧
      (191 / 200 : ℝ) ≤ Real.exp (-(9 / 200)) ∧
      Real.exp (-(9 / 200)) ≤ (200 / 209 : ℝ) ∧
      rngScenario 1 ≤ Real.exp (-(9 / 200)) ∧
      metropolis normalDist 1 rngScenario = [3 / 10] := by
  have hs : (0 : ℝ) < Real.sqrt (2 * Real.pi) :=
    Real.sqrt_pos.mpr (by positivity)
  have hr0 : rngScenario 0 = 3 / 5 := by norm_num [rngScenario]
  have hr1 : rngScenario 1 = 1 / 10 := by norm_num [rngScenario]
  have hx : (0 : ℝ) + 1 / 2 * rngScenario 0 = 3 / 10 := by
    rw [hr0]; norm_num
  have hpdf0 : normalDist.pdf 0 = 1 / Real.sqrt (2 * Real.pi) := by
    show Real.exp (-((0 : ℝ) ^ 2) / 2) / Real.sqrt (2 * Real.pi) =
      1 / Real.sqrt (2 * Real.pi)
    rw [show (-((0 : ℝ) ^ 2) / 2) = 0 by norm_num, Real.exp_zero]
  have hpdf3 : normalDist.pdf (3 / 10) =
      Real.exp (-(9 / 200)) / Real.sqrt (2 * Real.pi) := by
    show Real.exp (-(((3 : ℝ) / 10) ^ 2) / 2) / Real.sqrt (2 * Real.pi) = _
    rw [show (-(((3 : ℝ) / 10) ^ 2) / 2) = -(9 / 200) by norm_num]
  have hratio : normalDist.pdf (3 / 10) / normalDist.pdf 0 =
      Real.exp (-(9 / 200)) := by
    rw [hpdf3, hpdf0, div_div_div_comm, div_self hs.ne', div_one, div_one]
  have hlow : (191 / 200 : ℝ) ≤ Real.exp (-(9 / 200)) := by
    have h := Real.add_one_le_exp (-(9 / 200) : ℝ)
    linarith
  have hup : Real.exp (-(9 / 200)) ≤ (200 / 209 : ℝ) := by
    have h1 : (209 / 200 : ℝ) ≤ Real.exp (9 / 200) := by
      have h := Real.add_one_le_exp ((9 / 200) : ℝ)
      linarith
    have h2 : Real.exp (-(9 / 200 : ℝ)) * Real.exp (9 / 200 : ℝ) = 1 := by
      rw [← Real.exp_add]; norm_num
    nlinarith [Real.exp_pos (-(9 / 200) : ℝ)]
  have hne : normalDist.pdf 0 ≠ 0 := by
    rw [hpdf0]; positivity
  have hacc : accepts (normalDist.pdf ((0 : ℝ) + 1 / 2 * rngScenario 0))
      (normalDist.pdf 0) (rngScenario 1) = true := by
    rw [hx, hr1, accepts, if_neg hne, decide_eq_true_eq, ge_iff_le, hratio]
    linarith
  have hmean : normalDist.mean = 0 := rfl
  refine ⟨hx, hratio, hlow, hup, ?_, ?_⟩
  · rw [hr1]; linarith
  · show (metropolisLoop normalDist.pdf rngScenario (0 + 1) 0 normalDist.mean
      (normalDist.pdf normalDist.mean)).1 = [3 / 10]
    rw [hmean, metropolisLoop_accept normalDist.pdf rngScenario 0 0 0
      (normalDist.pdf 0) hacc]
    simp only [metropolisLoop, hx, List.cons.injEq, and_true]

lemma runSpecLoop_accept {α : Type} [LinearOrderedField α]
    (pdf : α → α) (stddev : α) (rng : ℕ → α) (n k : ℕ) (oldX oldProb : α)
    (h : accepts (pdf (oldX + stddev * rng k)) oldProb (rng (k + 1)) = true) :
    runSpecLoop pdf stddev rng (n + 1) k oldX oldProb =
      ((oldX + stddev * rng k) ::
          (runSpecLoop pdf stddev rng n (k + 2) (oldX + stddev * rng k)
            (pdf (oldX + stddev * rng k))).1,
        (runSpecLoop pdf stddev rng n (k + 2) (oldX + stddev * rng k)
          (pdf (oldX + stddev * rng k))).2) := by
  rw [runSpecLoop, if_pos h]

/-- C5 counterexample: with the target whose density is 1 at the start 0
and 0 elsewhere, a normal draw of 2 (candidate 1, candidate density 0,
current density 1) and uniform draw u = 0 — a value the half-open
interval [0, 1) contains — the recorded sample is the candidate 1, not
the unchanged current position 0: the zero acceptance ratio satisfies the
test `ratio >= u` at u = 0, so the proposal is accepted. -/
theorem zero_candidate_accepted_at_u_zero :
    metropolis indAtZeroDist 1 rngU0 = [1] ∧ (1 : ℚ) ≠ 0 := by
  refine ⟨?_, by norm_num⟩
  have hx : (0 : ℚ) + 1 / 2 * rngU0 0 = 1 := by norm_num [rngU0]
  have hacc : accepts (indAtZeroDist.pdf ((0 : ℚ) + 1 / 2 * rngU0 0))
      (indAtZeroDist.pdf 0) (rngU0 1) = true := by
    rw [hx]
    show accepts (if (1 : ℚ) = 0 then 1 else 0) (if (0 : ℚ) = 0 then 1 else 0)
      (rngU0 1) = true
    rw [if_neg (by norm_num : (1 : ℚ) ≠ 0), if_pos rfl, accepts,
      if_neg (by norm_num : (1 : ℚ) ≠ 0), decide_eq_true_eq]
    norm_num [rngU0]
  show (metropolisLoop indAtZeroDist.pdf rngU0 (0 + 1) 0 indAtZeroDist.mean
    (indAtZeroDist.pdf indAtZeroDist.mean)).1 = [1]
  rw [show indAtZeroDist.mean = (0 : ℚ) from rfl,
    metropolisLoop_accept indAtZeroDist.pdf rngU0 0 0 0 (indAtZeroDist.pdf 0)
      hacc]
  simp only [metropolisLoop, hx, List.cons.injEq, and_true]

/-- C5 amended: for every iteration in which the candidate density is
zero and the current density positive, the proposal is rejected for every
strictly positive uniform draw u in (0, 1): the acceptance ratio is zero
and the recorded sample equals the unchanged current position.  (At u = 0
the test `0 >= 0` succeeds and the candidate is accepted instead.) -/
theorem zero_candidate_rejected {α : Type} [LinearOrderedField α]
    (pdf : α → α) (rng : ℕ → α) (n k : ℕ) (oldX oldProb : α)
    (hpos : 0 < oldProb) (hzero : pdf (oldX + 1 / 2 * rng k) = 0)
    (hu : 0 < rng (k + 1)) :
    metropolisLoop pdf rng (n + 1) k oldX oldProb =
      (oldX :: (metropolisLoop pdf rng n (k + 2) oldX oldProb).1,
        (metropolisLoop pdf rng n (k + 2) oldX oldProb).2) := by
  apply metropolisLoop_reject
  rw [hzero, accepts, if_neg (ne_of_gt hpos), zero_div]
  exact decide_eq_false (not_le.mpr hu)

theorem zero_candidate_rejected_witness :
    (0 : ℚ) < 1 ∧ indAtZeroDist.pdf ((0 : ℚ) + 1 / 2 * rngHalf 0) = 0 ∧
      (0 : ℚ) < rngHalf 1 ∧
      metropolisLoop indAtZeroDist.pdf rngHalf 1 0 0 1 = ([0], 2) :=
  ⟨by norm_num, by norm_num [indAtZeroDist, rngHalf], by norm_num [rngHalf],
    (zero_candidate_rejected indAtZeroDist.pdf rngHalf 0 0 0 1 (by norm_num)
      (by norm_num [indAtZeroDist, rngHalf]) (by norm_num [rngHalf])).trans
      (by simp [metropolisLoop])⟩

/-- C6 counterexample: invoked with steps = 0 (a step count below 1) the
sampler does not fail fast with a configuration error — it returns the
empty sample sequence. -/
theorem zero_steps_returns_sequence :
    metropolis constDist 0 zeroRng = [] := rfl

/-- C6 amended: the code performs no configuration validation and has no
proposal-stddev parameter to validate; invoked with steps = 0 it simply
returns the empty sample sequence, with the rng cursor still at 0 — no
draw is consumed and no error is raised. -/
theorem no_validation_steps_zero {α : Type} [LinearOrderedField α] :
    ∀ (func : TargetDist α) (rng : ℕ → α),
      metropolis func 0 rng = [] ∧
        (metropolisLoop func.pdf rng 0 0 func.mean
          (func.pdf func.mean)).2 = 0 :=
  fun _ _ => ⟨rfl, rfl⟩

/-- C9 counterexample: the proposal width is not tunable.  On the
constant-density target with standard-normal draw 2 and uniform draw 0,
the code records `0 + 0.5 * 2 = 1` — the offset is scaled by the
hardcoded 0.5 — while the spec contract `run` invoked with
proposal_stddev = 2 on the same draws records `0 + 2 * 2 = 4`. -/
theorem hardcoded_stddev_not_tunable :
    metropolis constDist 1 rngU0 = [1] ∧
      runSpec constDist.pdf 1 2 0 rngU0 = [4] ∧ ((1 : ℚ) ≠ 4) := by
  have hu : rngU0 1 = 0 := by norm_num [rngU0]
  have hacc : accepts (constDist.pdf ((0 : ℚ) + 1 / 2 * rngU0 0))
      (constDist.pdf 0) (rngU0 1) = true := by
    show accepts (1 : ℚ) 1 (rngU0 1) = true
    rw [hu, accepts, if_neg (by norm_num : (1 : ℚ) ≠ 0), decide_eq_true_eq]
    norm_num
  have hacc2 : accepts (constDist.pdf ((0 : ℚ) + 2 * rngU0 0))
      (constDist.pdf 0) (rngU0 1) = true := by
    show accepts (1 : ℚ) 1 (rngU0 1) = true
    rw [hu, accepts, if_neg (by norm_num : (1 : ℚ) ≠ 0), decide_eq_true_eq]
    norm_num
  refine ⟨?_, ?_, by norm_num⟩
  · show (metropolisLoop constDist.pdf rngU0 (0 + 1) 0 constDist.mean
      (constDist.pdf constDist.mean)).1 = [1]
    rw [show constDist.mean = (0 : ℚ) from rfl,
      metropolisLoop_accept constDist.pdf rngU0 0 0 0 (constDist.pdf 0) hacc]
    simp only [metropolisLoop, List.cons.injEq, and_true]
    norm_num [rngU0]
  · show (runSpecLoop constDist.pdf 2 rngU0 (0 + 1) 0 0
      (constDist.pdf 0)).1 = [4]
    rw [runSpecLoop_accept constDist.pdf 2 rngU0 0 0 0 (constDist.pdf 0)
      hacc2]
    simp only [runSpecLoop, List.cons.injEq, and_true]
    norm_num [rngU0]

/-- C9 amended: the proposal standard deviation is not exposed as a
parameter — it is hardcoded to 0.5 inside the loop — and the sampler
coincides exactly with the spec contract `run` specialised to
proposal_stddev = 1/2 and initial_position = the target mean: in every
iteration the offset added to the current position is 0.5 times the
standard-normal draw. -/
theorem stddev_hardcoded_half {α : Type} [LinearOrderedField α] :
    ∀ (func : TargetDist α) (n : ℕ) (rng : ℕ → α),
      metropolis func n rng = runSpec func.pdf n (1 / 2) func.mean rng :=
  fun func n rng => by
    unfold metropolis runSpec
    rw [runSpecLoop_half]

/-- C10 counterexample: with a target whose density is 0 at its mean 0
and 1 elsewhere, standard-normal draw 2 and uniform draw 1/2, the first
sample is the candidate 1, not the initial position 0: the Python float
ratio 1/0 is +inf, which satisfies `>= u`, so the chain moves away from a
zero-density start as soon as a candidate has positive density. -/
theorem chain_moves_from_zero_density_start :
    metropolis zeroAtZeroDist 1 rngHalf = [1] ∧ (1 : ℚ) ≠ 0 := by
  refine ⟨?_, by norm_num⟩
  have hx : (0 : ℚ) + 1 / 2 * rngHalf 0 = 1 := by norm_num [rngHalf]
  have hacc : accepts (zeroAtZeroDist.pdf ((0 : ℚ) + 1 / 2 * rngHalf 0))
      (zeroAtZeroDist.pdf 0) (rngHalf 1) = true := by
    rw [hx]
    show accepts (if (1 : ℚ) = 0 then 0 else 1) (if (0 : ℚ) = 0 then 0 else 1)
      (rngHalf 1) = true
    rw [if_neg (by norm_num : (1 : ℚ) ≠ 0), if_pos rfl, accepts, if_pos rfl]
    norm_num
  show (metropolisLoop zeroAtZeroDist.pdf rngHalf (0 + 1) 0 zeroAtZeroDist.mean
    (zeroAtZeroDist.pdf zeroAtZeroDist.mean)).1 = [1]
  rw [show zeroAtZeroDist.mean = (0 : ℚ) from rfl,
    metropolisLoop_accept zeroAtZeroDist.pdf rngHalf 0 0 0
      (zeroAtZeroDist.pdf 0) hacc]
  simp only [metropolisLoop, hx, List.cons.injEq, and_true]

/-- C10 amended: starting an iteration with cached current density zero,
the Python float acceptance ratio is NaN when the candidate density is
also zero (comparison false: the iteration records the unchanged current
position and keeps the zero density) and +inf when the candidate density
is positive (comparison true for every uniform draw: the iteration
records the candidate and the chain moves).  So the chain is stuck only
while candidate densities are zero; it is not stuck forever, and the
sampler never records a NaN — samples are always either the current or
the candidate position. -/
theorem zero_density_current_state {α : Type} [LinearOrderedField α]
    (pdf : α → α) (rng : ℕ → α) (n k : ℕ) (oldX oldProb : α)
    (hzero : oldProb = 0) :
    metropolisLoop pdf rng (n + 1) k oldX oldProb =
      if 0 < pdf (oldX + 1 / 2 * rng k) then
        ((oldX + 1 / 2 * rng k) ::
            (metropolisLoop pdf rng n (k + 2) (oldX + 1 / 2 * rng k)
              (pdf (oldX + 1 / 2 * rng k))).1,
          (metropolisLoop pdf rng n (k + 2) (oldX + 1 / 2 * rng k)
            (pdf (oldX + 1 / 2 * rng k))).2)
      else
        (oldX :: (metropolisLoop pdf rng n (k + 2) oldX oldProb).1,
          (metropolisLoop pdf rng n (k + 2) oldX oldProb).2) := by
  by_cases hp : 0 < pdf (oldX + 1 / 2 * rng k)
  · rw [if_pos hp]
    exact metropolisLoop_accept _ _ _ _ _ _
      (by rw [accepts, if_pos hzero]; exact decide_eq_true hp)
  · rw [if_neg hp]
    exact metropolisLoop_reject _ _ _ _ _ _
      (by rw [accepts, if_pos hzero]; exact decide_eq_false hp)

theorem zero_density_current_state_witness :
    (0 : ℚ) = 0 ∧
      metropolisLoop zeroAtZeroDist.pdf rngHalf 1 0 0 0 = ([1], 2) :=
  ⟨rfl, (zero_density_current_state zeroAtZeroDist.pdf rngHalf 0 0 0 0
    rfl).trans (by norm_num [metropolisLoop, zeroAtZeroDist, rngHalf])⟩
